import Mathlib

/-!
Shallow embedding of the nam-lang interpreter core (shunting-yard parser,
postfix evaluation engine, dense matrix algebra) and proofs about it.

Source layout: the embedded code is `src/token.rs`, `src/errors.rs`,
`src/parser.rs`, `src/engine.rs`, `src/runtime.rs`, `src/matrix.rs`,
`src/scalar.rs`.  The `ast` module those files import (the `Operator`,
`ASTNodeValue` and `ASTNode` definitions of the current generation) is not
present in the sources; `src/ast.rs` is an earlier recursive-descent
generation with a different node type (`ASTNodeKind`).  The few missing
definitions are reconstructed below from the spec and are marked
"Modelled from the spec:".

Modelling conventions:
* `Scalar` (`pub type Scalar = f64;`) is modelled as `ℚ`.  Every concrete
  input evaluated in this file uses small integer values on which `f64`
  arithmetic is exact, and no control-flow decision of the embedded code
  depends on rounding, so the traces proved here coincide with the `f64`
  traces.
* Rust loops are embedded as fuel-indexed recursion.  A result of `none`
  means the computation did not return: either the fuel ran out (never the
  case for the concrete fuels used in the theorems) or the Rust original
  panicked (`unwrap`/`unreachable!`/index assertion/arithmetic overflow);
  each `none` branch is commented with the panic it models.  `some r`
  means the Rust function returned `r`.
* `&mut self` state (the parser's token state, the engine's variable map)
  is threaded explicitly; the engine returns its environment alongside the
  `Result` so that mutations preceding an error remain observable.
* `HashMap<String, RuntimeVal>` is modelled as an association list whose
  `insert` replaces the value of an existing key in place and appends new
  keys; only lookup and replace/insert are used by the engine, so iteration
  order never matters.
-/

namespace NamLang

/-- Source: `src/scalar.rs` (`pub type Scalar = f64;`), modelled as `ℚ`. -/
abbrev Scalar := ℚ

/-- Source: `src/token.rs` (`enum Token`).  `NumericLiteral(f64)` carries a
modelled `Scalar`. -/
inductive Token where
  | Plus
  | Minus
  | Asterisk
  | Slash
  | Equal
  | OpenParen
  | CloseParen
  | OpenBracket
  | CloseBracket
  | OpenCurly
  | CloseCurly
  | NumericLiteral (n : Scalar)
  | Identifier (name : String)
  | Comma
  | SemiColon
  | EndOfLine
  | EndOfFile
deriving DecidableEq, Repr

/-- Source: `src/token.rs` `Token::stringify`.  The numeric case formats the
literal; `f64` text formatting is replaced by `ℚ` text formatting (no theorem
depends on the produced text). -/
def Token.stringify : Token → String
  | .Plus => "Add"
  | .Minus => "Minus"
  | .Asterisk => "Asterisk"
  | .Slash => "Slash"
  | .Equal => "Equal"
  | .OpenParen => "OpenParen"
  | .CloseParen => "CloseParen"
  | .OpenBracket => "OpenBracket"
  | .CloseBracket => "CloseBracket"
  | .OpenCurly => "OpenCurly"
  | .CloseCurly => "CloseCurly"
  | .NumericLiteral n => "NumericLiteral: " ++ toString n
  | .Identifier name => if name = "" then "Identifier" else "Identifier: " ++ name
  | .Comma => "Comma"
  | .SemiColon => "SemiColon"
  | .EndOfLine => "EndOfLine"
  | .EndOfFile => "EndOfFile"

/-- Source: `src/errors.rs` (`enum ParsingError`).  The
`TokenizationError` wrapper variant is omitted because the parser is fed
already-tokenized input here.  Note: this enum has no `EmptyMatrixElement`
and no `DimensionsMismatch` variant (those exist only in the retired
parser of `src/ast.rs`). -/
inductive ParsingError where
  | UnmatchedOpenParen
  | UnmatchedCloseParen
  | UnexpectedEndOfInput
  | IncompleteStatement
  | InvalidArithmaticExpression
  | UnexpectedToken (expected : Option String) (found : Option String)
deriving DecidableEq, Repr

/-- Source: `src/errors.rs` (`enum EvaluationError`). -/
inductive EvaluationError where
  | NonexistantVar (name : String)
  | NestedMatrices
  | InconsistantMatrixWidth (expected : ℕ) (actual : ℕ)
  | DimensionsMismatch (lhs : ℕ × ℕ) (rhs : ℕ × ℕ)
  | NoninvertibleDivisorMatrix
  | InvalidArithmaticExpression
  | AssignmentToNonVariable
deriving DecidableEq, Repr

/-- Modelled from the spec: the current-generation `ast` module (imported by
`src/parser.rs` and `src/engine.rs` as `crate::ast`) is not under `src/`;
spec section 3 lists the operators: enum of Add, Subtract, Multiply, Divide,
Assign. -/
inductive Operator where
  | Add
  | Subtract
  | Multiply
  | Divide
  | Assign
deriving DecidableEq, Repr

/-- Modelled from the spec: "Each has an integer precedence: Multiply/Divide
= 3, Add/Subtract = 2, Assign = 1" (spec section 3). -/
def Operator.precedence : Operator → ℕ
  | .Multiply => 3
  | .Divide => 3
  | .Add => 2
  | .Subtract => 2
  | .Assign => 1

/-- Modelled from the spec: the `Operator -> Token` direction used by
`parse_stmt`'s error path (`op.tokenize()`); it maps each operator back to
its source token. -/
def Operator.tokenize : Operator → Token
  | .Add => Token.Plus
  | .Subtract => Token.Minus
  | .Multiply => Token.Asterisk
  | .Divide => Token.Slash
  | .Assign => Token.Equal

/-- Modelled from the spec: `TryFrom<Token> for Operator`, used at
`src/parser.rs:134,144,183,205`.  The five operator tokens convert; anything
else is an `UnexpectedToken` parsing error (same shape as the retired
`TryFrom<Token> for BinaryOpKind` in `src/ast.rs`). -/
def tokenToOperator : Token → Except ParsingError Operator
  | .Plus => .ok .Add
  | .Minus => .ok .Subtract
  | .Asterisk => .ok .Multiply
  | .Slash => .ok .Divide
  | .Equal => .ok .Assign
  | t => .error (.UnexpectedToken (some "Operator") (some t.stringify))

mutual
/-- Modelled from the spec (spec section 3, "ExprNode"/"ASTNodeValue"): the
tagged union consumed by `src/engine.rs` and produced by `src/parser.rs`.
`Matrix` rows hold decorated nodes (the engine calls `self.evaluate(cell)`
on them); `ArithmaticExpr` holds a flat postfix sequence of values. -/
inductive ASTNodeValue where
  | Variable (name : String)
  | Number (n : Scalar)
  | Matrix (rows : List (List ASTNode))
  | Operator (op : Operator)
  | ArithmaticExpr (rpn : List ASTNodeValue)

/-- Modelled from the spec (spec section 3): a parsed statement is one value
decorated with the two evaluation flags the engine reads. -/
inductive ASTNode where
  | mk (value : ASTNodeValue) (store_in_ans : Bool) (print_result : Bool)
end

def ASTNode.value : ASTNode → ASTNodeValue
  | .mk v _ _ => v

def ASTNode.store_in_ans : ASTNode → Bool
  | .mk _ s _ => s

def ASTNode.print_result : ASTNode → Bool
  | .mk _ _ p => p

/-- Modelled from the spec: `From<ASTNodeValue> for ASTNode` used at
`src/engine.rs:167` (`node.into()`); like the retired
`From<ASTNodeKind> for ASTNode` in `src/ast.rs` it attaches cleared flags. -/
def astNodeOfValue (v : ASTNodeValue) : ASTNode :=
  ASTNode.mk v false false

/-- Source: `src/matrix.rs` (`struct Matrix`): a flat row-major buffer plus a
`(rows, cols)` shape. -/
structure Matrix where
  data : List Scalar
  shape : ℕ × ℕ
deriving DecidableEq, Repr

/-- Source: `src/matrix.rs` `Matrix::new`. -/
def Matrix.new : Matrix := ⟨[], (0, 0)⟩

/-- Source: `src/matrix.rs` `Matrix::height` / `Matrix::nrows`. -/
def Matrix.height (m : Matrix) : ℕ := m.shape.1

/-- Source: `src/matrix.rs` `Matrix::width` / `Matrix::ncols`. -/
def Matrix.width (m : Matrix) : ℕ := m.shape.2

def Matrix.nrows (m : Matrix) : ℕ := m.shape.1

def Matrix.ncols (m : Matrix) : ℕ := m.shape.2

/-- Source: `src/matrix.rs` `Matrix::get_shape`. -/
def Matrix.getShape (m : Matrix) : ℕ × ℕ := m.shape

/-- Source: `src/matrix.rs` `Matrix::is_square`. -/
def Matrix.isSquare (m : Matrix) : Bool := m.width == m.height

/-- Source: `src/matrix.rs` `Index<(usize,usize)>`: `self[(row, col)]` is
`data[row * width + col]`.  Every call site in the embedded algorithms keeps
`row < nrows` and `col < ncols`, so the source's bounds assertions hold and
the `getD` default is never consulted. -/
def Matrix.entry (m : Matrix) (row col : ℕ) : Scalar :=
  m.data.getD (row * m.width + col) 0

/-- Source: `src/matrix.rs` `IndexMut<(usize,usize)>` (in-bounds writes; see
`Matrix.entry` for the bounds discussion). -/
def Matrix.setEntry (m : Matrix) (row col : ℕ) (x : Scalar) : Matrix :=
  ⟨m.data.set (row * m.width + col) x, m.shape⟩

/-- Source: `src/matrix.rs` `Matrix::last_cell` (`data.last()`). -/
def Matrix.lastCell (m : Matrix) : Option Scalar := m.data.getLast?

/-- Source: `src/matrix.rs` `Matrix::try_from_rows`: empty input gives the
empty matrix; a row whose length differs from the first row's gives
`InconsistantMatrixWidth(width, row.len())` (first offender); otherwise the
rows are flattened. -/
def Matrix.tryFromRows (rows : List (List Scalar)) : Except EvaluationError Matrix :=
  match rows with
  | [] => .ok ⟨[], (0, 0)⟩
  | r0 :: _ =>
    let width := r0.length
    match rows.find? (fun r => r.length != width) with
    | some bad => .error (.InconsistantMatrixWidth width bad.length)
    | none => .ok ⟨rows.flatten, (rows.length, width)⟩

/-- Source: `src/matrix.rs` `Matrix::zeros_rect`. -/
def Matrix.zerosRect (nrows ncolumns : ℕ) : Matrix :=
  ⟨List.replicate (nrows * ncolumns) 0, (nrows, ncolumns)⟩

/-- Source: `src/matrix.rs` `Matrix::identity_square`: a zero buffer with the
main diagonal set to one. -/
def Matrix.identitySquare (size : ℕ) : Matrix :=
  ⟨(List.range size).foldl (fun d i => d.set (i * size + i) 1)
      (List.replicate (size * size) 0),
    (size, size)⟩

/-- One step of the row-swap loops of `src/matrix.rs`: exchange
`self[(row1, col)]` and `self[(row2, col)]`. -/
def Matrix.swapCellsAt (m : Matrix) (row1 row2 col : ℕ) : Matrix :=
  let t := m.entry row1 col
  ((m.setEntry row1 col (m.entry row2 col)).setEntry row2 col t)

/-- Source: `src/matrix.rs` `Matrix::swap_rows_starting_from`: swap the two
rows on columns `start_col .. ncols`.  Its bounds assertion (`row1 < nrows`
and `row2 < nrows`) holds at every call site in `lu_decomp` and
`try_invert` (both rows come from ranges below `height`). -/
def Matrix.swapRowsStartingFrom (m : Matrix) (row1 row2 startCol : ℕ) : Matrix :=
  (List.range' startCol (m.ncols - startCol)).foldl
    (fun acc col => acc.swapCellsAt row1 row2 col) m

/-- Source: `src/matrix.rs` `Matrix::swap_rows_ending_at`: swap the two rows
on columns `0 ..= end_col`.  The function asserts
`row1 < nrows && row2 < nrows && end_col < ncols`; a failing assertion is a
panic, modelled as `none`. -/
def Matrix.swapRowsEndingAt (m : Matrix) (row1 row2 endCol : ℕ) : Option Matrix :=
  if row1 < m.nrows ∧ row2 < m.nrows ∧ endCol < m.ncols then
    some ((List.range (endCol + 1)).foldl
      (fun acc col => acc.swapCellsAt row1 row2 col) m)
  else
    none

/-- Release-mode two's-complement wrap of the `usize` expression `n - 1`
(`src/matrix.rs:331` computes `pivot_col - 1`).  For `n = 0` this value is
`2^64 - 1`; a debug build instead panics on the overflow at the same call,
and both behaviours end in a panic because `2^64 - 1` then fails
`swap_rows_ending_at`'s bounds assertion. -/
def usizeSub1 (n : ℕ) : ℕ := (n + (2 ^ 64 - 1)) % 2 ^ 64

/-- Source: `src/matrix.rs` `Vec::swap` on the permutation vector (both
indices are below `height` at the call site). -/
def listSwap (l : List ℕ) (i j : ℕ) : List ℕ :=
  let vi := l.getD i 0
  let vj := l.getD j 0
  (l.set i vj).set j vi

/-- Source: `src/matrix.rs:344-355`, the elimination inner loop of
`lu_decomp`: subtract `factor` times the pivot row from `row` across all
columns of `upper`. -/
def eliminateRowCols (upper : Matrix) (pivotRow row : ℕ) (factor : Scalar) : Matrix :=
  (List.range upper.width).foldl
    (fun u col => u.setEntry row col (u.entry row col - u.entry pivotRow col * factor))
    upper

/-- Source: `src/matrix.rs:343-355` ("Do the subtraction"): for each row
below the pivot with a nonzero cell in the pivot column, eliminate it and
record the multiplier in `lower`. -/
def eliminateBelow (upper lower : Matrix) (pivotRow pivotCol : ℕ) : Matrix × Matrix :=
  (List.range' (pivotRow + 1) (upper.height - (pivotRow + 1))).foldl
    (fun ul row =>
      if ul.1.entry row pivotCol = 0 then ul
      else
        let factor := ul.1.entry row pivotCol / ul.1.entry pivotRow pivotCol
        (eliminateRowCols ul.1 pivotRow row factor, ul.2.setEntry row pivotCol factor))
    (upper, lower)

/-- Source: `src/matrix.rs:326-334`: scan `pivot_row .. height` for the first
row with a nonzero cell in the pivot column. -/
def findSwapRow (upper : Matrix) (pivotRow pivotCol : ℕ) : Option ℕ :=
  (List.range' pivotRow (upper.height - pivotRow)).find?
    (fun row => upper.entry row pivotCol != 0)

/-- Source: `src/matrix.rs:318-358`, the `while` loop of `Matrix::lu_decomp`.
Fuel-indexed; each iteration either increments `shift` or increments
`pivot`, so `height + width + 1` fuel always suffices.  `none` models a
panic: the only panic reachable from the loop is `swap_rows_ending_at`
applied to the wrapped `pivot_col - 1` (see `usizeSub1`). -/
def luLoopF : ℕ → Matrix → Matrix → List ℕ → ℕ → ℕ → Option (Matrix × Matrix × List ℕ × ℕ)
  | 0, _, _, _, _, _ => none
  | fuel + 1, upper, lower, permutations, pivot, shift =>
    if pivot < upper.height ∧ pivot + shift < upper.width then
      let pivotRow := pivot
      let pivotCol := pivot + shift
      let afterSwap : Option (Matrix × Matrix × List ℕ) :=
        if upper.entry pivotRow pivotCol = 0 then
          match findSwapRow upper pivotRow pivotCol with
          | some row =>
            let u := upper.swapRowsStartingFrom pivotRow row pivotCol
            match lower.swapRowsEndingAt pivotRow row (usizeSub1 pivotCol) with
            | some l => some (u, l, listSwap permutations pivotRow row)
            | none => none
          | none => some (upper, lower, permutations)
        else some (upper, lower, permutations)
      match afterSwap with
      | none => none
      | some (u1, l1, p1) =>
        if u1.entry pivotRow pivotCol = 0 then
          luLoopF fuel u1 l1 p1 pivot (shift + 1)
        else
          let ul := eliminateBelow u1 l1 pivotRow pivotCol
          luLoopF fuel ul.1 ul.2 p1 (pivot + 1) shift
    else some (upper, lower, permutations, shift)

/-- Source: `src/matrix.rs` `Matrix::lu_decomp`: run the elimination loop on
a copy, then set the unit diagonal of `lower` and compute
`rank = (upper.width() - shift).min(upper.height())`.  Returns
`(lower, upper, permutations, rank)`; `none` models a panic. -/
def Matrix.luDecomp (m : Matrix) : Option (Matrix × Matrix × List ℕ × ℕ) :=
  match luLoopF (m.height + m.width + 1) m (Matrix.zerosRect m.nrows m.ncols)
      (List.range m.height) 0 0 with
  | none => none
  | some (u, l, p, shift) =>
    let lower := (List.range l.height).foldl (fun acc i => acc.setEntry i i 1) l
    some (lower, u, p, min (u.width - shift) u.height)

/-- Source: `src/matrix.rs:399-439`, the Gauss-Jordan loop of
`Matrix::try_invert` over the primary-diagonal indices.  `none` means the
source returned `None` (no nonzero row found for a zero pivot). -/
def gjLoop : List ℕ → Matrix → Matrix → Option (Matrix × Matrix)
  | [], s, r => some (s, r)
  | prim :: rest, s, r =>
    let fixedPivot : Option Matrix :=
      if s.entry prim prim = 0 then
        match (List.range' prim (s.height - prim)).find?
            (fun row => s.entry row prim != 0) with
        | some row => some (s.swapRowsStartingFrom prim row prim)
        | none => none
      else some s
    match fixedPivot with
    | none => none
    | some s1 =>
      let factor := 1 / s1.entry prim prim
      let s2 := (List.range' prim (s1.ncols - prim)).foldl
        (fun acc cell => acc.setEntry prim cell (acc.entry prim cell * factor)) s1
      let r2 := r.setEntry prim prim factor
      let sr := (List.range s2.nrows).foldl
        (fun sr row =>
          if row = prim then sr
          else
            let f := sr.1.entry row prim
            (List.range sr.1.ncols).foldl
              (fun sr2 cell =>
                (sr2.1.setEntry row cell (sr2.1.entry row cell - sr2.1.entry prim cell * f),
                 sr2.2.setEntry row cell (sr2.2.entry row cell - sr2.2.entry prim cell * f)))
              sr)
        (s2, r2)
      gjLoop rest sr.1 sr.2

/-- Source: `src/matrix.rs` `Matrix::try_invert`: reject non-square input,
run Gauss-Jordan against a companion identity matrix, then check the
post-condition — the last diagonal cell must be `1.0` and the rest of the
last row all-zero — else return `None`. -/
def Matrix.tryInvert (m : Matrix) : Option Matrix :=
  if !m.isSquare then none
  else
    match gjLoop (List.range m.ncols) m (Matrix.identitySquare m.height) with
    | none => none
    | some (s, r) =>
      if s.lastCell ≠ some 1 then none
      else if (List.range (s.width - 1)).any (fun i => s.entry (s.height - 1) i != 0) then none
      else some r

/-- Source: `src/matrix.rs` `impl Add for Matrix` (element-wise; the shape
assertion holds at the single call site, which checks shapes first). -/
def matAdd (a b : Matrix) : Matrix :=
  ⟨List.zipWith (fun x y => x + y) a.data b.data, a.shape⟩

/-- Source: `src/matrix.rs` `impl Sub for Matrix`. -/
def matSub (a b : Matrix) : Matrix :=
  ⟨List.zipWith (fun x y => x - y) a.data b.data, a.shape⟩

/-- Source: `src/matrix.rs` `impl Neg for Matrix`. -/
def matNeg (m : Matrix) : Matrix :=
  ⟨m.data.map (fun c => -c), m.shape⟩

/-- Source: `src/matrix.rs` `Matrix::add_scalar`. -/
def Matrix.addScalar (m : Matrix) (s : Scalar) : Matrix :=
  ⟨m.data.map (fun c => c + s), m.shape⟩

/-- Source: `src/matrix.rs` `Matrix::sub_scalar`. -/
def Matrix.subScalar (m : Matrix) (s : Scalar) : Matrix :=
  ⟨m.data.map (fun c => c - s), m.shape⟩

/-- Source: `src/matrix.rs` `Matrix::mul_scalar`. -/
def Matrix.mulScalar (m : Matrix) (s : Scalar) : Matrix :=
  ⟨m.data.map (fun c => c * s), m.shape⟩

/-- Source: `src/matrix.rs` `Matrix::div_scalar`. -/
def Matrix.divScalar (m : Matrix) (s : Scalar) : Matrix :=
  ⟨m.data.map (fun c => c / s), m.shape⟩

/-- Source: `src/scalar.rs` `impl Sub<Matrix> for Scalar`
(`rhs.neg().add_scalar(self)`). -/
def scalarSubMat (s : Scalar) (m : Matrix) : Matrix :=
  (matNeg m).addScalar s

/-- Source: `src/scalar.rs` `impl Div<Matrix> for Scalar` (reciprocate each
cell under `self`). -/
def scalarDivMat (s : Scalar) (m : Matrix) : Matrix :=
  ⟨m.data.map (fun c => s / c), m.shape⟩

/-- Source: `src/matrix.rs` `impl Mul for Matrix`: the standard triple loop;
the width/height assertion holds at the call sites (checked in `try_mul`,
and `try_div` multiplies same-shaped square matrices).  The source builds the
rows and feeds them to `try_from_rows(...).unwrap()`, which succeeds because
all rows have length `rhs.width()`; the flattening is done directly here. -/
def matMul (a b : Matrix) : Matrix :=
  ⟨((List.range a.height).map (fun i =>
      (List.range b.width).map (fun j =>
        (List.range a.width).foldl (fun acc k => acc + a.entry i k * b.entry k j) 0))).flatten,
    (a.height, b.width)⟩

/-- Source: `src/runtime.rs` (`enum RuntimeVal`). -/
inductive RuntimeVal where
  | Variable (name : String)
  | Scalar (s : Scalar)
  | Matrix (m : Matrix)
deriving DecidableEq, Repr

/-- Source: `src/runtime.rs` `RuntimeVal::try_add`.  `none` models the
`unreachable!` panic on an unresolved `Variable` operand (the engine
resolves variables before calling these). -/
def RuntimeVal.tryAdd : RuntimeVal → RuntimeVal → Option (Except EvaluationError RuntimeVal)
  | .Scalar a, .Scalar b => some (.ok (.Scalar (a + b)))
  | .Matrix a, .Matrix b =>
    if a.getShape ≠ b.getShape then
      some (.error (.DimensionsMismatch a.getShape b.getShape))
    else some (.ok (.Matrix (matAdd a b)))
  | .Matrix m, .Scalar s => some (.ok (.Matrix (m.addScalar s)))
  | .Scalar s, .Matrix m => some (.ok (.Matrix (m.addScalar s)))
  | _, _ => none

/-- Source: `src/runtime.rs` `RuntimeVal::try_sub`. -/
def RuntimeVal.trySub : RuntimeVal → RuntimeVal → Option (Except EvaluationError RuntimeVal)
  | .Scalar a, .Scalar b => some (.ok (.Scalar (a - b)))
  | .Matrix a, .Matrix b =>
    if a.getShape ≠ b.getShape then
      some (.error (.DimensionsMismatch a.getShape b.getShape))
    else some (.ok (.Matrix (matSub a b)))
  | .Matrix m, .Scalar s => some (.ok (.Matrix (m.subScalar s)))
  | .Scalar s, .Matrix m => some (.ok (.Matrix (scalarSubMat s m)))
  | _, _ => none

/-- Source: `src/runtime.rs` `RuntimeVal::try_mul`. -/
def RuntimeVal.tryMul : RuntimeVal → RuntimeVal → Option (Except EvaluationError RuntimeVal)
  | .Scalar a, .Scalar b => some (.ok (.Scalar (a * b)))
  | .Matrix a, .Matrix b =>
    if a.width ≠ b.height then
      some (.error (.DimensionsMismatch a.getShape b.getShape))
    else some (.ok (.Matrix (matMul a b)))
  | .Matrix m, .Scalar s => some (.ok (.Matrix (m.mulScalar s)))
  | .Scalar s, .Matrix m => some (.ok (.Matrix (m.mulScalar s)))
  | _, _ => none

/-- Source: `src/runtime.rs` `RuntimeVal::try_div`: scalar over scalar is
plain division; matrix over matrix first requires the divisor square, then
the shapes equal, then multiplies by `try_invert`'s result, failing
`NoninvertibleDivisorMatrix` if there is none. -/
def RuntimeVal.tryDiv : RuntimeVal → RuntimeVal → Option (Except EvaluationError RuntimeVal)
  | .Scalar a, .Scalar b => some (.ok (.Scalar (a / b)))
  | .Matrix a, .Matrix b =>
    if !b.isSquare then
      some (.error .NoninvertibleDivisorMatrix)
    else if a.getShape ≠ b.getShape then
      some (.error (.DimensionsMismatch a.getShape b.getShape))
    else
      match b.tryInvert with
      | some inv => some (.ok (.Matrix (matMul a inv)))
      | none => some (.error .NoninvertibleDivisorMatrix)
  | .Matrix m, .Scalar s => some (.ok (.Matrix (m.divScalar s)))
  | .Scalar s, .Matrix m => some (.ok (.Matrix (scalarDivMat s m)))
  | _, _ => none

/-- Source: `src/engine.rs` (`variables: HashMap<String, RuntimeVal>`),
modelled as an association list with unique keys. -/
abbrev Env := List (String × RuntimeVal)

/-- Source: `src/engine.rs` `Engine::assign_var` (`HashMap::insert`):
replace the value of an existing key, otherwise add the binding. -/
def assignVar (env : Env) (name : String) (val : RuntimeVal) : Env :=
  match env with
  | [] => [(name, val)]
  | (k, v) :: rest =>
    if k = name then (k, val) :: rest else (k, v) :: assignVar rest name val

/-- Source: `src/engine.rs` `Engine::get_var` (`HashMap::get` + clone). -/
def getVar (env : Env) (name : String) : Option RuntimeVal :=
  match env with
  | [] => none
  | (k, v) :: rest => if k = name then some v else getVar rest name

/-- Source: `src/engine.rs:148-157`: apply an operator to its two resolved
operands.  For `Assign` the `Variable` left-operand case was already
consumed (the engine `continue`s there), so a remaining `Variable` is the
`unreachable!` of line 154 (modelled `none`) and everything else is
`AssignmentToNonVariable`. -/
def applyBin (op : Operator) (left right : RuntimeVal) : Option (Except EvaluationError RuntimeVal) :=
  match op with
  | .Add => left.tryAdd right
  | .Subtract => left.trySub right
  | .Multiply => left.tryMul right
  | .Divide => left.tryDiv right
  | .Assign =>
    match left with
    | .Variable _ => none
    | _ => some (.error .AssignmentToNonVariable)

mutual
/-- Source: `src/engine.rs` `Engine::evaluate`, split by node kind; the
statement flags are passed alongside the node value.  The environment is
returned next to the `Result` (the Rust mutates `self`).  Fuel-indexed:
`none` is fuel exhaustion or a panic (each panic branch is commented). -/
def evalValueF : ℕ → ASTNodeValue → Bool → Bool → Env → Option ((Except EvaluationError RuntimeVal) × Env)
  | 0, _, _, _, _ => none
  | fuel + 1, v, store, printr, env =>
    match v with
    | .Number n =>
      let res := RuntimeVal.Scalar n
      let env1 := if store then assignVar env "ans" res else env
      some (.ok res, env1)
    | .Matrix rows =>
      match rows with
      | [] =>
        let res := RuntimeVal.Matrix Matrix.new
        let env1 := if store then assignVar env "ans" res else env
        some (.ok res, env1)
      | r0 :: _ =>
        let width := r0.length
        let height := rows.length
        match evalRowsF fuel width rows env with
        | none => none
        | some (.error e, env1) => some (.error e, env1)
        | some (.ok resMat, env1) =>
          let built : Except EvaluationError RuntimeVal :=
            if width = 1 ∧ height = 1 then
              .ok (.Scalar ((resMat.headD []).headD 0))
            else
              match Matrix.tryFromRows resMat with
              | .error e => .error e
              | .ok mm => .ok (.Matrix mm)
          match built with
          | .error e => some (.error e, env1)
          | .ok res =>
            let env2 := if store then assignVar env1 "ans" res else env1
            some (.ok res, env2)
    | .Variable name =>
      match getVar env name with
      | some val => some (.ok val, env)
      | none => some (.error (.NonexistantVar name), env)
    | .ArithmaticExpr rpn =>
      -- `rpn_queue.pop()` removes from the back of the stored vector, so the
      -- scan processes the reversed sequence front to back.
      match evalRPNF fuel rpn.reverse [] env with
      | none => none
      | some (.error e, env1) => some (.error e, env1)
      | some (.ok stack, env1) =>
        match stack with
        | [res] =>
          match res with
          | .Variable name =>
            if printr then
              match getVar env1 name with
              | some _ => some (.ok res, env1)
              | none => some (.error (.NonexistantVar name), env1)
            else some (.ok res, env1)
          | _ =>
            let env2 := if store then assignVar env1 "ans" res else env1
            some (.ok res, env2)
        | _ => some (.error .InvalidArithmaticExpression, env1)
    | .Operator _ => some (.error .InvalidArithmaticExpression, env)

/-- Source: `src/engine.rs:52-79` (`for row in mat`): check the row's width
against the first row's, then evaluate its cells; collect the realized
rows. -/
def evalRowsF : ℕ → ℕ → List (List ASTNode) → Env → Option ((Except EvaluationError (List (List Scalar))) × Env)
  | 0, _, _, _ => none
  | fuel + 1, width, rows, env =>
    match rows with
    | [] => some (.ok [], env)
    | row :: rest =>
      if width ≠ row.length then
        some (.error (.InconsistantMatrixWidth width row.length), env)
      else
        match evalCellsF fuel row env with
        | none => none
        | some (.error e, env1) => some (.error e, env1)
        | some (.ok cells, env1) =>
          match evalRowsF fuel width rest env1 with
          | none => none
          | some (.error e, env2) => some (.error e, env2)
          | some (.ok more, env2) => some (.ok (cells :: more), env2)

/-- Source: `src/engine.rs:57-77` (`for cell in row`): evaluate the cell
recursively; a `Matrix` result is `NestedMatrices`, a `Variable` result is
resolved now (a stored `Matrix` is again `NestedMatrices`, an absent name is
`NonexistantVar`, a stored `Variable` is the `unreachable!` of line 72,
modelled `none`). -/
def evalCellsF : ℕ → List ASTNode → Env → Option ((Except EvaluationError (List Scalar)) × Env)
  | 0, _, _ => none
  | fuel + 1, cells, env =>
    match cells with
    | [] => some (.ok [], env)
    | cell :: rest =>
      match evalValueF fuel cell.value cell.store_in_ans cell.print_result env with
      | none => none
      | some (.error e, env1) => some (.error e, env1)
      | some (.ok rv, env1) =>
        match rv with
        | .Matrix _ => some (.error .NestedMatrices, env1)
        | .Scalar q =>
          match evalCellsF fuel rest env1 with
          | none => none
          | some (.error e, env2) => some (.error e, env2)
          | some (.ok qs, env2) => some (.ok (q :: qs), env2)
        | .Variable name =>
          match getVar env1 name with
          | some (.Scalar q) =>
            match evalCellsF fuel rest env1 with
            | none => none
            | some (.error e, env2) => some (.error e, env2)
            | some (.ok qs, env2) => some (.ok (q :: qs), env2)
          | some (.Matrix _) => some (.error .NestedMatrices, env1)
          | some (.Variable _) => none
          | none => some (.error (.NonexistantVar name), env1)

/-- Source: `src/engine.rs:110-174`, the postfix scan (`while let Some(node)
= rpn_queue.pop()`), taking the queue already in pop order.  The right
operand is popped and resolved; the left operand is popped, and a `Variable`
under `Assign` binds `name -> right` and pushes the `Variable` back
(`continue`), otherwise it is resolved; then the operator is applied. -/
def evalRPNF : ℕ → List ASTNodeValue → List RuntimeVal → Env → Option ((Except EvaluationError (List RuntimeVal)) × Env)
  | 0, _, _, _ => none
  | fuel + 1, queue, stack, env =>
    match queue with
    | [] => some (.ok stack, env)
    | node :: rest =>
      match node with
      | .Number n => evalRPNF fuel rest (.Scalar n :: stack) env
      | .Variable name => evalRPNF fuel rest (.Variable name :: stack) env
      | .Matrix mrows =>
        -- `self.evaluate(node.into())`: flags cleared by `astNodeOfValue`.
        match evalValueF fuel (.Matrix mrows) false false env with
        | none => none
        | some (.error e, env1) => some (.error e, env1)
        | some (.ok rv, env1) => evalRPNF fuel rest (rv :: stack) env1
      | .ArithmaticExpr _ => none
      | .Operator op =>
        match stack with
        | [] => some (.error .InvalidArithmaticExpression, env)
        | top :: stack1 =>
          let rightRes : Except EvaluationError RuntimeVal :=
            match top with
            | .Variable vn =>
              match getVar env vn with
              | some x => .ok x
              | none => .error (.NonexistantVar vn)
            | x => .ok x
          match rightRes with
          | .error e => some (.error e, env)
          | .ok right =>
            match stack1 with
            | [] => some (.error .InvalidArithmaticExpression, env)
            | .Variable vn :: stack2 =>
              if op = .Assign then
                evalRPNF fuel rest (.Variable vn :: stack2) (assignVar env vn right)
              else
                match getVar env vn with
                | none => some (.error (.NonexistantVar vn), env)
                | some left =>
                  match applyBin op left right with
                  | none => none
                  | some (.error e) => some (.error e, env)
                  | some (.ok vres) => evalRPNF fuel rest (vres :: stack2) env
            | left :: stack2 =>
              match applyBin op left right with
              | none => none
              | some (.error e) => some (.error e, env)
              | some (.ok vres) => evalRPNF fuel rest (vres :: stack2) env
end

/-- Source: `src/engine.rs` `Engine::evaluate` applied to a whole decorated
statement node. -/
def evaluateNode (fuel : ℕ) (node : ASTNode) (env : Env) : Option ((Except EvaluationError RuntimeVal) × Env) :=
  evalValueF fuel node.value node.store_in_ans node.print_result env

/-- Source: `src/parser.rs` (`struct Parser`): the token input (already
tokenized; the `Lexer` is outside the embedded core), the inside-a-matrix
flag and the one-token pushback slot. -/
structure PState where
  input : List Token
  is_inside_matrix : Bool
  last_token : Option Token
deriving DecidableEq, Repr

/-- Source: `src/parser.rs` `Parser::next_token`: take the pushed-back token
if present, else the next input token (`None` once the input iterator is
exhausted). -/
def nextToken : PState → Option Token × PState
  | ⟨input, inMat, some t⟩ => (some t, ⟨input, inMat, none⟩)
  | ⟨[], inMat, none⟩ => (none, ⟨[], inMat, none⟩)
  | ⟨t :: rest, inMat, none⟩ => (some t, ⟨rest, inMat, none⟩)

/-- Source: `src/parser.rs:136-147`, the pop-while loop of the operator arm:
while the incoming precedence is strictly below the top-of-stack precedence,
pop the top operator to the output and recompute the top precedence (an
open-paren or empty stack counts as precedence 0).  The operator stack keeps
its top at the head.  `none` models the `unwrap` panics (both unreachable:
the stack is empty only when the tracked precedence is 0, and holds only
operator tokens and open parens). -/
def popHigherPrec (precedence : ℕ) : List Token → List ASTNodeValue → ℕ → Option (List Token × List ASTNodeValue × ℕ)
  | temp, res, lastPrec =>
    if precedence < lastPrec then
      match temp with
      | [] => none
      | t :: rest =>
        match tokenToOperator t with
        | .error _ => none
        | .ok op =>
          let newPrec : Option ℕ :=
            match rest with
            | [] => some 0
            | Token.OpenParen :: _ => some 0
            | t2 :: _ =>
              match tokenToOperator t2 with
              | .ok o2 => some o2.precedence
              | .error _ => none
          match newPrec with
          | none => none
          | some np => popHigherPrec precedence rest (res ++ [ASTNodeValue.Operator op]) np
    else some (temp, res, lastPrec)

/-- Source: `src/parser.rs:176-184`, the close-paren drain: pop operators to
the output until the matching open paren, `UnmatchedCloseParen` if the stack
empties first.  `none` models the `Operator::try_from(last).unwrap()` panic
(unreachable). -/
def popUntilParen : List Token → List ASTNodeValue → Option (Except ParsingError (List Token × List ASTNodeValue))
  | [], _ => some (.error .UnmatchedCloseParen)
  | Token.OpenParen :: rest, res => some (.ok (rest, res))
  | t :: rest, res =>
    match tokenToOperator t with
    | .ok op => popUntilParen rest (res ++ [ASTNodeValue.Operator op])
    | .error _ => none

/-- Source: `src/parser.rs:201-206`, the end-of-expression drain of the
operator stack: a remaining open paren is `UnmatchedOpenParen`; conversion
failures propagate (the `?` on `Operator::try_from`). -/
def drainOps : List Token → List ASTNodeValue → Except ParsingError (List ASTNodeValue)
  | [], res => .ok res
  | Token.OpenParen :: _, _ => .error .UnmatchedOpenParen
  | t :: rest, res =>
    match tokenToOperator t with
    | .ok op => drainOps rest (res ++ [ASTNodeValue.Operator op])
    | .error e => .error e

/-- Source: `src/parser.rs:56-58`:
`!expr.contains(&ASTNodeValue::Operator(Operator::Assign))` — equality with
that constant holds exactly for an `Operator(Assign)` element. -/
def containsAssignOp (l : List ASTNodeValue) : Bool :=
  l.any fun v =>
    match v with
    | .Operator .Assign => true
    | _ => false

/-- Source: `src/parser.rs:52-68`, the `store_in_ans` computation of
`parse_stmt` restated as a function of the node kind (the `Operator` kind
makes `parse_stmt` fail instead; `false` here is never compared against). -/
def ansRule : ASTNodeValue → Bool
  | .Number _ => true
  | .Matrix _ => true
  | .ArithmaticExpr rpn => !containsAssignOp rpn
  | .Variable _ => false
  | .Operator _ => false

/-- Source: `src/parser.rs:30-68`, the tail of `parse_stmt`: set
`print_result` from the terminator (done by the caller) and `store_in_ans`
from the node kind; an `Operator` node is an `UnexpectedToken` error. -/
def finishStmt (node : ASTNode) (printr : Bool) (st : PState) : Option (Except ParsingError (ASTNode × PState)) :=
  match node.value with
  | .Operator op => some (.error (.UnexpectedToken none (some op.tokenize.stringify)))
  | v => some (.ok (ASTNode.mk v (ansRule v) printr, st))

mutual
/-- Source: `src/parser.rs:84-195`, the token loop of
`parse_arithmatic_expr`.  Arguments: pending-operator stack `temp` (top at
head), output `res` (in emission order), `precedence_stack`,
`last_precedence`, `last_was_operand`.  Returns the output, the remaining
operator stack and the parser state at loop exit (`break` or input end). -/
def parseArithLoop : ℕ → PState → List Token → List ASTNodeValue → List ℕ → ℕ → Bool → Option (Except ParsingError (List ASTNodeValue × List Token × PState))
  | 0, _, _, _, _, _, _ => none
  | fuel + 1, st, temp, res, precStack, lastPrec, lastWasOperand =>
    match nextToken st with
    | (none, st1) => some (.ok (res, temp, st1))
    | (some token, ⟨input1, inMat1, last1⟩) =>
      match token with
      | .NumericLiteral n =>
        if lastWasOperand then
          if inMat1 then
            some (.ok (res, temp, ⟨input1, inMat1, some (Token.NumericLiteral n)⟩))
          else some (.error .InvalidArithmaticExpression)
        else
          parseArithLoop fuel ⟨input1, inMat1, last1⟩ temp (res ++ [ASTNodeValue.Number n])
            precStack lastPrec true
      | .Identifier name =>
        if lastWasOperand then
          if inMat1 then
            some (.ok (res, temp, ⟨input1, inMat1, some (Token.Identifier name)⟩))
          else some (.error .InvalidArithmaticExpression)
        else
          parseArithLoop fuel ⟨input1, inMat1, last1⟩ temp (res ++ [ASTNodeValue.Variable name])
            precStack lastPrec true
      | .OpenBracket =>
        if lastWasOperand then
          if inMat1 then
            some (.ok (res, temp, ⟨input1, inMat1, some Token.OpenBracket⟩))
          else some (.error .InvalidArithmaticExpression)
        else
          match parseMatrixF fuel ⟨input1, inMat1, some Token.OpenBracket⟩ with
          | none => none
          | some (.error e) => some (.error e)
          | some (.ok (mval, st2)) =>
            parseArithLoop fuel st2 temp (res ++ [mval]) precStack lastPrec true
      | .Plus | .Minus | .Asterisk | .Slash | .Equal =>
        if !lastWasOperand then some (.error .InvalidArithmaticExpression)
        else
          match tokenToOperator token with
          | .error e => some (.error e)
          | .ok opv =>
            match popHigherPrec opv.precedence temp res lastPrec with
            | none => none
            | some (temp1, res1, _) =>
              parseArithLoop fuel ⟨input1, inMat1, last1⟩ (token :: temp1) res1 precStack
                opv.precedence false
      | .OpenParen =>
        if lastWasOperand then
          if inMat1 then
            some (.ok (res, temp, ⟨input1, inMat1, some Token.OpenParen⟩))
          else some (.error .InvalidArithmaticExpression)
        else
          parseArithLoop fuel ⟨input1, inMat1, last1⟩ (Token.OpenParen :: temp) res
            (lastPrec :: precStack) 0 false
      | .CloseParen =>
        if !lastWasOperand then some (.error .InvalidArithmaticExpression)
        else
          match popUntilParen temp res with
          | none => none
          | some (.error e) => some (.error e)
          | some (.ok (temp1, res1)) =>
            match precStack with
            | [] => none
            | p :: ps => parseArithLoop fuel ⟨input1, inMat1, last1⟩ temp1 res1 ps p true
      | t => some (.ok (res, temp, ⟨input1, inMat1, some t⟩))

/-- Source: `src/parser.rs:77-222` `Parser::parse_arithmatic_expr`: run the
token loop, reject an empty output (`UnexpectedEndOfInput`), drain the
operator stack, and either return the single node directly or reverse the
output and wrap it as an `ArithmaticExpr` (flags cleared). -/
def parseArithmaticExprF : ℕ → PState → Option (Except ParsingError (ASTNode × PState))
  | 0, _ => none
  | fuel + 1, st =>
    match parseArithLoop fuel st [] [] [] 0 false with
    | none => none
    | some (.error e) => some (.error e)
    | some (.ok (res, temp, st1)) =>
      match res with
      | [] => some (.error .UnexpectedEndOfInput)
      | _ =>
        match drainOps temp res with
        | .error e => some (.error e)
        | .ok res1 =>
          match res1 with
          | [single] => some (.ok (ASTNode.mk single false false, st1))
          | _ => some (.ok (ASTNode.mk (.ArithmaticExpr res1.reverse) false false, st1))

/-- Source: `src/parser.rs:73-75` `Parser::parse_expr`. -/
def parseExprF : ℕ → PState → Option (Except ParsingError (ASTNode × PState))
  | 0, _ => none
  | fuel + 1, st => parseArithmaticExprF fuel st

/-- Source: `src/parser.rs:224-273` `Parser::parse_matrix`: clear the
pushed-back open bracket (the `assert_eq!` on it is modelled by `none` on
any other pushback, which no caller produces), peek for an immediately
empty matrix, else parse the first cell and enter the separator loop. -/
def parseMatrixF : ℕ → PState → Option (Except ParsingError (ASTNodeValue × PState))
  | 0, _ => none
  | fuel + 1, ⟨input, inMat, last⟩ =>
    match last with
    | some Token.OpenBracket =>
      match input with
      | Token.CloseBracket :: rest => some (.ok (.Matrix [], ⟨rest, inMat, none⟩))
      | _ =>
        match parseExprF fuel ⟨input, true, none⟩ with
        | none => none
        | some (.error e) => some (.error e)
        | some (.ok (first, st2)) => parseMatrixLoop fuel st2 [] [first]
    | _ => none

/-- Source: `src/parser.rs:239-270`, the separator loop of `parse_matrix`:
`,` does nothing, `;` closes a non-empty row, `]` closes the matrix (pushing
a non-empty current row) and clears the inside-a-matrix flag, `EndOfFile` is
`IncompleteStatement`, and any other token is pushed back and parsed as the
next cell expression.  `none` at input end models the `unreachable!` after
the loop. -/
def parseMatrixLoop : ℕ → PState → List (List ASTNode) → List ASTNode → Option (Except ParsingError (ASTNodeValue × PState))
  | 0, _, _, _ => none
  | fuel + 1, st, mat, row =>
    match nextToken st with
    | (none, _) => none
    | (some t, ⟨input1, inMat1, last1⟩) =>
      match t with
      | .Comma => parseMatrixLoop fuel ⟨input1, inMat1, last1⟩ mat row
      | .SemiColon =>
        match row with
        | [] => parseMatrixLoop fuel ⟨input1, inMat1, last1⟩ mat row
        | _ => parseMatrixLoop fuel ⟨input1, inMat1, last1⟩ (mat ++ [row]) []
      | .CloseBracket =>
        let mat1 :=
          match row with
          | [] => mat
          | _ => mat ++ [row]
        some (.ok (.Matrix mat1, ⟨input1, false, last1⟩))
      | .EndOfFile => some (.error .IncompleteStatement)
      | _ =>
        match parseExprF fuel ⟨input1, true, some t⟩ with
        | none => none
        | some (.error e) => some (.error e)
        | some (.ok (expr, st3)) => parseMatrixLoop fuel st3 mat (row ++ [expr])

/-- Source: `src/parser.rs:27-71` `Parser::parse_stmt`: parse one
expression, require a statement terminator (`EndOfFile`/`EndOfLine` set
`print_result`, `;` clears it, anything else is `UnexpectedToken`), then set
`store_in_ans` by the node-kind rule.  `none` at input end models the
`unreachable!` of the `None` arm. -/
def parseStmtF : ℕ → PState → Option (Except ParsingError (ASTNode × PState))
  | 0, _ => none
  | fuel + 1, st =>
    match parseExprF fuel st with
    | none => none
    | some (.error e) => some (.error e)
    | some (.ok (node, st1)) =>
      match nextToken st1 with
      | (some Token.EndOfFile, st2) => finishStmt node true st2
      | (some Token.EndOfLine, st2) => finishStmt node true st2
      | (some Token.SemiColon, st2) => finishStmt node false st2
      | (some t, _) =>
        some (.error (.UnexpectedToken (some Token.EndOfFile.stringify) (some t.stringify)))
      | (none, _) => none
end

/-- Source: `src/parser.rs:23-25` `Parser::parse` on a fresh parser over the
given token stream.  The fuel is linear in the input size; every loop
iteration and nested call consumes input tokens, so this always suffices
(and `none` would be distinguishable from every `some` result proved
below). -/
def parse (tokens : List Token) : Option (Except ParsingError ASTNode) :=
  match parseStmtF (8 * tokens.length + 16) ⟨tokens, false, none⟩ with
  | none => none
  | some (.error e) => some (.error e)
  | some (.ok (node, _)) => some (.ok node)

mutual
/-- No `Assign` operator occurs anywhere inside the value, and no nested
decorated node carries a set `store_in_ans` flag.  These are the two ways
`Engine::evaluate` can write to the environment; the parser only ever emits
nested nodes with cleared flags, so on parser output the flag half is
automatic. -/
def pureV : ASTNodeValue → Bool
  | .Variable _ => true
  | .Number _ => true
  | .Operator op =>
    match op with
    | .Assign => false
    | _ => true
  | .Matrix rows => pureRows rows
  | .ArithmaticExpr l => pureList l

def pureRows : List (List ASTNode) → Bool
  | [] => true
  | r :: rs => pureRow r && pureRows rs

def pureRow : List ASTNode → Bool
  | [] => true
  | c :: cs => pureNode c && pureRow cs

def pureNode : ASTNode → Bool
  | .mk v s _ => !s && pureV v

def pureList : List ASTNodeValue → Bool
  | [] => true
  | v :: vs => pureV v && pureList vs
end

theorem pureList_append (a b : List ASTNodeValue) :
    pureList (a ++ b) = (pureList a && pureList b) := by
  induction a with
  | nil => simp [pureList]
  | cons v vs ih => simp [pureList, ih, Bool.and_assoc]

theorem pureList_reverse (l : List ASTNodeValue) :
    pureList l.reverse = pureList l := by
  induction l with
  | nil => rfl
  | cons v vs ih =>
    simp [pureList, List.reverse_cons, pureList_append, ih, Bool.and_comm]

/-- The engine writes to its environment only through `Engine::assign_var`,
which is reached from an `Assign` operator in the postfix scan, from a
nested node whose `store_in_ans` flag is set, or from the post-success
`ans` update (never taken on an error path).  Hence, with the statement's
own `store_in_ans` cleared, evaluation of an assignment-free pure value
returns the environment it was given, for each of the four mutually
recursive evaluation functions. -/
theorem evalPureEnv (fuel : ℕ) :
    (∀ v printr env out, pureV v = true →
       evalValueF fuel v false printr env = some out → out.2 = env) ∧
    (∀ width rows env out, pureRows rows = true →
       evalRowsF fuel width rows env = some out → out.2 = env) ∧
    (∀ cells env out, pureRow cells = true →
       evalCellsF fuel cells env = some out → out.2 = env) ∧
    (∀ queue stack env out, pureList queue = true →
       evalRPNF fuel queue stack env = some out → out.2 = env) := by
  induction fuel with
  | zero =>
    refine ⟨?_, ?_, ?_, ?_⟩ <;> intros <;>
      simp [evalValueF, evalRowsF, evalCellsF, evalRPNF] at *
  | succ fuel ih =>
    obtain ⟨ihV, ihRows, ihCells, ihRPN⟩ := ih
    refine ⟨?_, ?_, ?_, ?_⟩
    · intro v printr env out hp h
      cases v with
      | Variable name =>
        simp only [evalValueF] at h
        cases hG : getVar env name <;> simp only [hG] at h <;>
          (cases Option.some.inj h; rfl)
      | Number n =>
        simp only [evalValueF, Bool.false_eq_true, if_false] at h
        cases Option.some.inj h; rfl
      | Operator op =>
        simp only [evalValueF] at h
        cases Option.some.inj h; rfl
      | Matrix rows =>
        cases rows with
        | nil =>
          simp only [evalValueF, Bool.false_eq_true, if_false] at h
          cases Option.some.inj h; rfl
        | cons r0 rs =>
          simp only [evalValueF] at h
          cases hE : evalRowsF fuel r0.length (r0 :: rs) env with
          | none => simp only [hE] at h; exact absurd h (by simp)
          | some pr =>
            have henv1 : pr.2 = env := ihRows _ _ _ _ (by simpa [pureV] using hp) hE
            obtain ⟨r, env1⟩ := pr
            simp only [hE] at h
            cases r with
            | error e => cases Option.some.inj h; exact henv1
            | ok resMat =>
              simp only [Bool.false_eq_true, if_false] at h
              split at h
              · cases Option.some.inj h; exact henv1
              · cases Option.some.inj h; exact henv1
      | ArithmaticExpr l =>
        simp only [evalValueF] at h
        cases hE : evalRPNF fuel l.reverse [] env with
        | none => simp only [hE] at h; exact absurd h (by simp)
        | some pr =>
          have henv1 : pr.2 = env := by
            refine ihRPN _ _ _ _ ?_ hE
            rw [pureList_reverse]
            simpa [pureV] using hp
          obtain ⟨r, env1⟩ := pr
          simp only [hE] at h
          cases r with
          | error e => cases Option.some.inj h; exact henv1
          | ok stack =>
            simp only [Bool.false_eq_true, if_false] at h
            cases stack with
            | nil => cases Option.some.inj h; exact henv1
            | cons res stail =>
              cases stail with
              | cons a b => cases Option.some.inj h; exact henv1
              | nil =>
                cases res with
                | Variable name =>
                  cases printr with
                  | false =>
                    simp only [Bool.false_eq_true, if_false] at h
                    cases Option.some.inj h; exact henv1
                  | true =>
                    simp only [if_true] at h
                    cases hG : getVar env1 name <;> simp only [hG] at h <;>
                      (cases Option.some.inj h; exact henv1)
                | Scalar q => cases Option.some.inj h; exact henv1
                | Matrix m => cases Option.some.inj h; exact henv1
    · intro width rows env out hp h
      cases rows with
      | nil =>
        simp only [evalRowsF] at h
        cases Option.some.inj h; rfl
      | cons row rest =>
        have hp1 : pureRow row = true ∧ pureRows rest = true := by
          simpa [pureRows, Bool.and_eq_true] using hp
        simp only [evalRowsF] at h
        split at h
        · cases Option.some.inj h; rfl
        · cases hE : evalCellsF fuel row env with
          | none => simp only [hE] at h; exact absurd h (by simp)
          | some pr =>
            have henv1 : pr.2 = env := ihCells _ _ _ hp1.1 hE
            obtain ⟨r, env1⟩ := pr
            simp only [hE] at h
            cases r with
            | error e => cases Option.some.inj h; exact henv1
            | ok cells =>
              cases hE2 : evalRowsF fuel width rest env1 with
              | none => simp only [hE2] at h; exact absurd h (by simp)
              | some pr2 =>
                have henv2 : pr2.2 = env1 := ihRows _ _ _ _ hp1.2 hE2
                obtain ⟨r2, env2⟩ := pr2
                simp only [hE2] at h
                cases r2 <;> (cases Option.some.inj h; exact henv2.trans henv1)
    · intro cells env out hp h
      cases cells with
      | nil =>
        simp only [evalCellsF] at h
        cases Option.some.inj h; rfl
      | cons cell rest =>
        obtain ⟨v, s, p⟩ := cell
        have hp1 : (!s && pureV v) = true ∧ pureRow rest = true := by
          simpa [pureRow, pureNode, Bool.and_eq_true] using hp
        have hs : s = false := by cases s <;> simp_all
        subst hs
        have hpv : pureV v = true := by simpa using hp1.1
        simp only [evalCellsF, ASTNode.value, ASTNode.store_in_ans, ASTNode.print_result] at h
        cases hE : evalValueF fuel v false p env with
        | none => simp only [hE] at h; exact absurd h (by simp)
        | some pr =>
          have henv1 : pr.2 = env := ihV _ _ _ _ hpv hE
          obtain ⟨r, env1⟩ := pr
          simp only [hE] at h
          cases r with
          | error e => cases Option.some.inj h; exact henv1
          | ok rv =>
            cases rv with
            | Matrix m => cases Option.some.inj h; exact henv1
            | Scalar q =>
              cases hE2 : evalCellsF fuel rest env1 with
              | none => simp only [hE2] at h; exact absurd h (by simp)
              | some pr2 =>
                have henv2 : pr2.2 = env1 := ihCells _ _ _ hp1.2 hE2
                obtain ⟨r2, env2⟩ := pr2
                simp only [hE2] at h
                cases r2 <;> (cases Option.some.inj h; exact henv2.trans henv1)
            | Variable name =>
              cases hG : getVar env1 name with
              | none => simp only [hG] at h; cases Option.some.inj h; exact henv1
              | some gv =>
                simp only [hG] at h
                cases gv with
                | Scalar q =>
                  cases hE2 : evalCellsF fuel rest env1 with
                  | none => simp only [hE2] at h; exact absurd h (by simp)
                  | some pr2 =>
                    have henv2 : pr2.2 = env1 := ihCells _ _ _ hp1.2 hE2
                    obtain ⟨r2, env2⟩ := pr2
                    simp only [hE2] at h
                    cases r2 <;> (cases Option.some.inj h; exact henv2.trans henv1)
                | Matrix m => cases Option.some.inj h; exact henv1
                | Variable n2 => exact absurd h (by simp)
    · intro queue stack env out hp h
      cases queue with
      | nil =>
        simp only [evalRPNF] at h
        cases Option.some.inj h; rfl
      | cons node rest =>
        have hp1 : pureV node = true ∧ pureList rest = true := by
          simpa [pureList, Bool.and_eq_true] using hp
        cases node with
        | Number n =>
          simp only [evalRPNF] at h
          exact ihRPN _ _ _ _ hp1.2 h
        | Variable name =>
          simp only [evalRPNF] at h
          exact ihRPN _ _ _ _ hp1.2 h
        | ArithmaticExpr l =>
          simp only [evalRPNF] at h
          exact absurd h (by simp)
        | Matrix mrows =>
          simp only [evalRPNF] at h
          cases hE : evalValueF fuel (.Matrix mrows) false false env with
          | none => simp only [hE] at h; exact absurd h (by simp)
          | some pr =>
            have henv1 : pr.2 = env := ihV _ _ _ _ hp1.1 hE
            obtain ⟨r, env1⟩ := pr
            simp only [hE] at h
            cases r with
            | error e => cases Option.some.inj h; exact henv1
            | ok rv => exact (ihRPN _ _ _ _ hp1.2 h).trans henv1
        | Operator op =>
          have hop : op ≠ Operator.Assign := by
            intro hcon; subst hcon; simp [pureV] at hp1
          simp only [evalRPNF] at h
          repeat' split at h
          all_goals try exact absurd (by assumption) hop
          all_goals try exact ihRPN _ _ _ _ hp1.2 h
          all_goals try simp at h
          all_goals cases h
          all_goals rfl

/-- Claim C1 (amended): if `Engine::evaluate` returns an error on a
statement that contains no `Assign` operator anywhere (and whose nested
nodes carry cleared `store_in_ans` flags, as the parser always emits them),
then the variable environment after the call equals the environment before
the call; in particular the implicit `ans` update of a failed statement
never survives.  The original claim, quantifying over statements *with*
assignments, is refuted by `evaluate_error_env_corruption_cex`: an `=` that
completes inside a parenthesised subexpression stays bound when a later
step of the same statement fails. -/
theorem evaluate_error_preserves_env_without_assign
    (fuel : ℕ) (node : ASTNode) (env : Env) (e : EvaluationError) (env2 : Env)
    (hpure : pureV node.value = true)
    (h : evaluateNode fuel node env = some (.error e, env2)) :
    env2 = env := by
  obtain ⟨v, store, printr⟩ := node
  simp only [evaluateNode, ASTNode.value, ASTNode.store_in_ans, ASTNode.print_result] at h hpure
  cases fuel with
  | zero => simp [evalValueF] at h
  | succ fuel =>
    obtain ⟨ihV, ihRows, ihCells, ihRPN⟩ := evalPureEnv fuel
    cases v with
    | Variable name =>
      simp only [evalValueF] at h
      cases hG : getVar env name with
      | none =>
        simp only [hG] at h
        cases Option.some.inj h; rfl
      | some val =>
        simp only [hG] at h
        simp at h
    | Number n =>
      simp only [evalValueF] at h
      simp at h
    | Operator op =>
      simp only [evalValueF] at h
      cases Option.some.inj h; rfl
    | Matrix rows =>
      cases rows with
      | nil =>
        simp only [evalValueF] at h
        simp at h
      | cons r0 rs =>
        simp only [evalValueF] at h
        cases hE : evalRowsF fuel r0.length (r0 :: rs) env with
        | none => simp only [hE] at h; simp at h
        | some pr =>
          have henv1 : pr.2 = env := ihRows _ _ _ _ (by simpa [pureV] using hpure) hE
          obtain ⟨r, env1⟩ := pr
          simp only [hE] at h
          cases r with
          | error e2 =>
            cases Option.some.inj h
            exact henv1
          | ok resMat =>
            clear ihV ihRows ihCells ihRPN
            repeat' split at h
            all_goals try (cases Option.some.inj h)
            all_goals simp_all
    | ArithmaticExpr l =>
      simp only [evalValueF] at h
      cases hE : evalRPNF fuel l.reverse [] env with
      | none => simp only [hE] at h; simp at h
      | some pr =>
        have henv1 : pr.2 = env := by
          refine ihRPN _ _ _ _ ?_ hE
          rw [pureList_reverse]
          simpa [pureV] using hpure
        obtain ⟨r, env1⟩ := pr
        simp only [hE] at h
        cases r with
        | error e2 =>
          cases Option.some.inj h
          exact henv1
        | ok stack =>
          clear ihV ihRows ihCells ihRPN
          repeat' split at h
          all_goals try (cases Option.some.inj h)
          all_goals simp_all

theorem parseStmt_store_rule
    (fuel : ℕ) (st : PState) (node : ASTNode) (st2 : PState)
    (h : parseStmtF fuel st = some (.ok (node, st2))) :
    node.store_in_ans = ansRule node.value := by
  cases fuel with
  | zero => simp [parseStmtF] at h
  | succ fuel =>
    simp only [parseStmtF] at h
    cases hE : parseExprF fuel st with
    | none => simp only [hE] at h; simp at h
    | some r =>
      simp only [hE] at h
      cases r with
      | error e => simp at h
      | ok pr =>
        obtain ⟨node0, st1⟩ := pr
        cases hN : nextToken st1 with
        | mk topt st1b =>
          simp only [hN] at h
          obtain ⟨v0, s0, p0⟩ := node0
          cases topt with
          | none => simp at h
          | some t =>
            have hfin : ∀ pr2 : Bool, finishStmt (ASTNode.mk v0 s0 p0) pr2 st1b = some (.ok (node, st2)) →
                node.store_in_ans = ansRule node.value := by
              intro pr2 hf
              simp only [finishStmt, ASTNode.value] at hf
              cases v0 with
              | Operator op => simp at hf
              | Variable name =>
                cases Option.some.inj hf
                rfl
              | Number n =>
                cases Option.some.inj hf
                rfl
              | Matrix rows =>
                cases Option.some.inj hf
                rfl
              | ArithmaticExpr rpn =>
                cases Option.some.inj hf
                rfl
            cases t <;> first
              | exact hfin _ h
              | simp at h



/-! ## Claim theorems -/

/-- A literal number cell as the parser emits it inside a matrix literal
(flags cleared by `parse_expr`). -/
def numNode (n : Scalar) : ASTNode :=
  ASTNode.mk (ASTNodeValue.Number n) false false

/-- Claim C1, counterexample: evaluating the statement `(x=1)+q` (whose
parse is also shown) in the empty environment returns the error
`NonexistantVar "q")` — the right operand of `+` is unbound — yet the
binding `x -> 1`, made when the parenthesised assignment completed earlier
in the same postfix scan, remains in the environment, which is therefore
not equal to the environment before the call. -/
theorem evaluate_error_env_corruption_cex :
    parse [Token.OpenParen, Token.Identifier "x", Token.Equal, Token.NumericLiteral 1,
        Token.CloseParen, Token.Plus, Token.Identifier "q", Token.EndOfFile] =
      some (.ok (ASTNode.mk (ASTNodeValue.ArithmaticExpr
        [ASTNodeValue.Operator Operator.Add, ASTNodeValue.Variable "q",
         ASTNodeValue.Operator Operator.Assign, ASTNodeValue.Number 1,
         ASTNodeValue.Variable "x"]) false true)) ∧
    evaluateNode 100 (ASTNode.mk (ASTNodeValue.ArithmaticExpr
        [ASTNodeValue.Operator Operator.Add, ASTNodeValue.Variable "q",
         ASTNodeValue.Operator Operator.Assign, ASTNodeValue.Number 1,
         ASTNodeValue.Variable "x"]) false true) [] =
      some (.error (.NonexistantVar "q"), [("x", RuntimeVal.Scalar 1)]) ∧
    ([("x", RuntimeVal.Scalar 1)] : Env) ≠ [] := by
  refine ⟨rfl, rfl, ?_⟩
  simp

/-- Claim C1 (amended), witness: the hypotheses of
`evaluate_error_preserves_env_without_assign` hold at the assignment-free
statement `q` (a bare unbound variable read), which errors with
`NonexistantVar` and leaves the empty environment unchanged. -/
theorem evaluate_error_preserves_env_without_assign_witness :
    pureV (ASTNode.mk (ASTNodeValue.Variable "q") false true).value = true ∧
    evaluateNode 10 (ASTNode.mk (ASTNodeValue.Variable "q") false true) [] =
      some (.error (.NonexistantVar "q"), []) ∧
    ([] : Env) = [] :=
  ⟨rfl, rfl,
    evaluate_error_preserves_env_without_assign 10
      (ASTNode.mk (ASTNodeValue.Variable "q") false true) [] (.NonexistantVar "q") [] rfl rfl⟩

/-- Claim C2: `Matrix::lu_decomp` does *not* return on every input.  On the
2-by-2 matrix `[[0,1],[1,0]]` the first pivot cell is zero and the row
below it is nonzero, so the partial-pivoting branch runs
`lower.swap_rows_ending_at(pivot_row, row, pivot_col - 1)` with
`pivot_col = 0`: the `usize` subtraction `0 - 1` panics in a debug build
and wraps to `2^64 - 1` in a release build, where the bounds assertion of
`swap_rows_ending_at` then panics.  The embedding returns `none` (no value
returned) instead of any `(L, U, P, rank)`. -/
theorem luDecomp_zero_pivot_first_column_panics :
    Matrix.luDecomp ⟨[0, 1, 1, 0], (2, 2)⟩ = none := by
  rfl

/-- Claim C3: the parser pops a pending operator only when it has *strictly
greater* precedence than the incoming one (`src/parser.rs:136`), so
equal-precedence operators stack up and are applied right to left:
`1 - 2 + 3` parses to the postfix sequence of `1 - (2 + 3)` and evaluates
to `-4` (not the left-associative `2`), and `8 / 4 / 2` evaluates to
`8 / (4 / 2) = 4` (not the left-associative `1`). -/
theorem equal_precedence_operators_group_right :
    parse [Token.NumericLiteral 1, Token.Minus, Token.NumericLiteral 2, Token.Plus,
        Token.NumericLiteral 3, Token.EndOfFile] =
      some (.ok (ASTNode.mk (ASTNodeValue.ArithmaticExpr
        [ASTNodeValue.Operator Operator.Subtract, ASTNodeValue.Operator Operator.Add,
         ASTNodeValue.Number 3, ASTNodeValue.Number 2, ASTNodeValue.Number 1]) true true)) ∧
    evaluateNode 100 (ASTNode.mk (ASTNodeValue.ArithmaticExpr
        [ASTNodeValue.Operator Operator.Subtract, ASTNodeValue.Operator Operator.Add,
         ASTNodeValue.Number 3, ASTNodeValue.Number 2, ASTNodeValue.Number 1]) true true) [] =
      some (.ok (RuntimeVal.Scalar (1 - (2 + 3))),
        [("ans", RuntimeVal.Scalar (1 - (2 + 3)))]) ∧
    ((1 : Scalar) - (2 + 3) = -4) ∧ (((1 : Scalar) - 2) + 3 = 2) ∧
    parse [Token.NumericLiteral 8, Token.Slash, Token.NumericLiteral 4, Token.Slash,
        Token.NumericLiteral 2, Token.EndOfFile] =
      some (.ok (ASTNode.mk (ASTNodeValue.ArithmaticExpr
        [ASTNodeValue.Operator Operator.Divide, ASTNodeValue.Operator Operator.Divide,
         ASTNodeValue.Number 2, ASTNodeValue.Number 4, ASTNodeValue.Number 8]) true true)) ∧
    evaluateNode 100 (ASTNode.mk (ASTNodeValue.ArithmaticExpr
        [ASTNodeValue.Operator Operator.Divide, ASTNodeValue.Operator Operator.Divide,
         ASTNodeValue.Number 2, ASTNodeValue.Number 4, ASTNodeValue.Number 8]) true true) [] =
      some (.ok (RuntimeVal.Scalar (8 / (4 / 2))),
        [("ans", RuntimeVal.Scalar (8 / (4 / 2)))]) ∧
    ((8 : Scalar) / (4 / 2) = 4) ∧ (((8 : Scalar) / 4) / 2 = 1) :=
  ⟨rfl, rfl, by norm_num, by norm_num, rfl, rfl, by norm_num, by norm_num⟩

/-- Claim C4, counterexample: the token stream of `[1,2;3,4,5]` does *not*
fail `Parser::parse` — it parses successfully to a matrix node with rows of
lengths 2 and 3 (the `ParsingError` enum of `src/errors.rs` has no
`DimensionsMismatch` variant at all). -/
theorem matrix_row_mismatch_parse_succeeds_cex :
    parse [Token.OpenBracket, Token.NumericLiteral 1, Token.Comma, Token.NumericLiteral 2,
        Token.SemiColon, Token.NumericLiteral 3, Token.Comma, Token.NumericLiteral 4,
        Token.Comma, Token.NumericLiteral 5, Token.CloseBracket, Token.EndOfFile] =
      some (.ok (ASTNode.mk (ASTNodeValue.Matrix
        [[numNode 1, numNode 2], [numNode 3, numNode 4, numNode 5]]) true true)) :=
  rfl

/-- Claim C4 (amended): matrix-literal row lengths are *not* validated at
parse time; `[1,2;3,4,5]` parses successfully, and the mismatch is caught
when the engine evaluates the matrix node, as the evaluation error
`InconsistantMatrixWidth(2,3)` (every row is compared against the first
row's length); `[1,2;3,4]` parses and evaluates to a 2-by-2 matrix. -/
theorem matrix_row_mismatch_detected_at_eval :
    parse [Token.OpenBracket, Token.NumericLiteral 1, Token.Comma, Token.NumericLiteral 2,
        Token.SemiColon, Token.NumericLiteral 3, Token.Comma, Token.NumericLiteral 4,
        Token.Comma, Token.NumericLiteral 5, Token.CloseBracket, Token.EndOfFile] =
      some (.ok (ASTNode.mk (ASTNodeValue.Matrix
        [[numNode 1, numNode 2], [numNode 3, numNode 4, numNode 5]]) true true)) ∧
    evaluateNode 100 (ASTNode.mk (ASTNodeValue.Matrix
        [[numNode 1, numNode 2], [numNode 3, numNode 4, numNode 5]]) true true) [] =
      some (.error (.InconsistantMatrixWidth 2 3), []) ∧
    parse [Token.OpenBracket, Token.NumericLiteral 1, Token.Comma, Token.NumericLiteral 2,
        Token.SemiColon, Token.NumericLiteral 3, Token.Comma, Token.NumericLiteral 4,
        Token.CloseBracket, Token.EndOfFile] =
      some (.ok (ASTNode.mk (ASTNodeValue.Matrix
        [[numNode 1, numNode 2], [numNode 3, numNode 4]]) true true)) ∧
    evaluateNode 100 (ASTNode.mk (ASTNodeValue.Matrix
        [[numNode 1, numNode 2], [numNode 3, numNode 4]]) true true) [] =
      some (.ok (RuntimeVal.Matrix ⟨[1, 2, 3, 4], (2, 2)⟩),
        [("ans", RuntimeVal.Matrix ⟨[1, 2, 3, 4], (2, 2)⟩)]) :=
  ⟨rfl, rfl, rfl, rfl⟩

/-- Claim C5: `store_in_ans` is computed by the exhaustive node-kind rule of
`parse_stmt` (first conjunct, for every successful parse), and concretely:
`x = 5` parses with `store_in_ans = false` and evaluating it binds `x` but
leaves `ans` unbound; reading the bare statement `ans` afterwards fails
with `NonexistantVar "ans"`; a `Number`, a `Matrix` literal and an
assignment-free operator expression all parse with `store_in_ans = true`
and evaluating them binds `ans` to the result. -/
theorem store_in_ans_rule_and_assignment_ans_behavior :
    (∀ (fuel : ℕ) (st : PState) (node : ASTNode) (st2 : PState),
      parseStmtF fuel st = some (.ok (node, st2)) →
      node.store_in_ans = ansRule node.value) ∧
    parse [Token.Identifier "x", Token.Equal, Token.NumericLiteral 5, Token.EndOfFile] =
      some (.ok (ASTNode.mk (ASTNodeValue.ArithmaticExpr
        [ASTNodeValue.Operator Operator.Assign, ASTNodeValue.Number 5,
         ASTNodeValue.Variable "x"]) false true)) ∧
    evaluateNode 100 (ASTNode.mk (ASTNodeValue.ArithmaticExpr
        [ASTNodeValue.Operator Operator.Assign, ASTNodeValue.Number 5,
         ASTNodeValue.Variable "x"]) false true) [] =
      some (.ok (RuntimeVal.Variable "x"), [("x", RuntimeVal.Scalar 5)]) ∧
    getVar [("x", RuntimeVal.Scalar 5)] "ans" = none ∧
    parse [Token.Identifier "ans", Token.EndOfFile] =
      some (.ok (ASTNode.mk (ASTNodeValue.Variable "ans") false true)) ∧
    evaluateNode 100 (ASTNode.mk (ASTNodeValue.Variable "ans") false true)
        [("x", RuntimeVal.Scalar 5)] =
      some (.error (.NonexistantVar "ans"), [("x", RuntimeVal.Scalar 5)]) ∧
    parse [Token.NumericLiteral 5, Token.EndOfFile] =
      some (.ok (ASTNode.mk (ASTNodeValue.Number 5) true true)) ∧
    evaluateNode 100 (ASTNode.mk (ASTNodeValue.Number 5) true true) [] =
      some (.ok (RuntimeVal.Scalar 5), [("ans", RuntimeVal.Scalar 5)]) ∧
    parse [Token.OpenBracket, Token.NumericLiteral 5, Token.CloseBracket, Token.EndOfFile] =
      some (.ok (ASTNode.mk (ASTNodeValue.Matrix [[numNode 5]]) true true)) ∧
    evaluateNode 100 (ASTNode.mk (ASTNodeValue.Matrix [[numNode 5]]) true true) [] =
      some (.ok (RuntimeVal.Scalar 5), [("ans", RuntimeVal.Scalar 5)]) ∧
    parse [Token.NumericLiteral 1, Token.Plus, Token.NumericLiteral 2, Token.EndOfFile] =
      some (.ok (ASTNode.mk (ASTNodeValue.ArithmaticExpr
        [ASTNodeValue.Operator Operator.Add, ASTNodeValue.Number 2,
         ASTNodeValue.Number 1]) true true)) ∧
    evaluateNode 100 (ASTNode.mk (ASTNodeValue.ArithmaticExpr
        [ASTNodeValue.Operator Operator.Add, ASTNodeValue.Number 2,
         ASTNodeValue.Number 1]) true true) [] =
      some (.ok (RuntimeVal.Scalar (1 + 2)), [("ans", RuntimeVal.Scalar (1 + 2))]) ∧
    ((1 : Scalar) + 2 = 3) :=
  ⟨parseStmt_store_rule, rfl, rfl, rfl, rfl, rfl, rfl, rfl, rfl, rfl, rfl, rfl, by norm_num⟩

/-- Claim C5, witness: the node-kind rule of the first conjunct of
`store_in_ans_rule_and_assignment_ans_behavior`, applied at the concrete
parse of the statement `1+2`. -/
theorem store_in_ans_rule_witness :
    (ASTNode.mk (ASTNodeValue.ArithmaticExpr
      [ASTNodeValue.Operator Operator.Add, ASTNodeValue.Number 2,
       ASTNodeValue.Number 1]) true true).store_in_ans =
    ansRule (ASTNode.mk (ASTNodeValue.ArithmaticExpr
      [ASTNodeValue.Operator Operator.Add, ASTNodeValue.Number 2,
       ASTNodeValue.Number 1]) true true).value :=
  store_in_ans_rule_and_assignment_ans_behavior.1 48
    ⟨[Token.NumericLiteral 1, Token.Plus, Token.NumericLiteral 2, Token.EndOfFile], false, none⟩
    (ASTNode.mk (ASTNodeValue.ArithmaticExpr
      [ASTNodeValue.Operator Operator.Add, ASTNodeValue.Number 2,
       ASTNodeValue.Number 1]) true true)
    ⟨[], false, none⟩ rfl

/-- Claim C6, counterexample: a matrix literal with two consecutive commas,
`[1,,2]`, does *not* fail with any parse error — `parse_matrix` treats `,`
as a no-op separator, so the stream parses successfully to the same
one-row matrix node as `[1,2]` (and the `ParsingError` enum of
`src/errors.rs` has no `EmptyMatrixElement` variant). -/
theorem consecutive_commas_parse_succeeds_cex :
    parse [Token.OpenBracket, Token.NumericLiteral 1, Token.Comma, Token.Comma,
        Token.NumericLiteral 2, Token.CloseBracket, Token.EndOfFile] =
      some (.ok (ASTNode.mk (ASTNodeValue.Matrix [[numNode 1, numNode 2]]) true true)) :=
  rfl

/-- Claim C6 (amended): inside a matrix literal, consecutive comma
separators are silently skipped: `[1,,2]` parses to exactly the same node
as `[1,2]`, with no error. -/
theorem consecutive_commas_are_skipped :
    parse [Token.OpenBracket, Token.NumericLiteral 1, Token.Comma, Token.Comma,
        Token.NumericLiteral 2, Token.CloseBracket, Token.EndOfFile] =
      parse [Token.OpenBracket, Token.NumericLiteral 1, Token.Comma,
        Token.NumericLiteral 2, Token.CloseBracket, Token.EndOfFile] ∧
    parse [Token.OpenBracket, Token.NumericLiteral 1, Token.Comma,
        Token.NumericLiteral 2, Token.CloseBracket, Token.EndOfFile] =
      some (.ok (ASTNode.mk (ASTNodeValue.Matrix [[numNode 1, numNode 2]]) true true)) :=
  ⟨rfl, rfl⟩

/-- Claim C7: for all scalar operands, `RuntimeVal::try_div` returns
`Ok(Scalar(a / b))` where `/` is the scalar division of the model (native
`f64` division in the source), and in particular never returns an error —
division by zero also lands in the `Ok` constructor. -/
theorem tryDiv_scalar_scalar_total (a b : Scalar) :
    RuntimeVal.tryDiv (RuntimeVal.Scalar a) (RuntimeVal.Scalar b) =
      some (.ok (RuntimeVal.Scalar (a / b))) :=
  rfl

/-- Claim C8: multiplication binds tighter than addition — the token stream
of `2+3*4` parses to the postfix sequence of `2 + (3 * 4)` and evaluates to
the scalar `14`, which is also stored in `ans`. -/
theorem multiplication_binds_tighter_than_addition :
    parse [Token.NumericLiteral 2, Token.Plus, Token.NumericLiteral 3, Token.Asterisk,
        Token.NumericLiteral 4, Token.EndOfFile] =
      some (.ok (ASTNode.mk (ASTNodeValue.ArithmaticExpr
        [ASTNodeValue.Operator Operator.Add, ASTNodeValue.Operator Operator.Multiply,
         ASTNodeValue.Number 4, ASTNodeValue.Number 3, ASTNodeValue.Number 2]) true true)) ∧
    evaluateNode 100 (ASTNode.mk (ASTNodeValue.ArithmaticExpr
        [ASTNodeValue.Operator Operator.Add, ASTNodeValue.Operator Operator.Multiply,
         ASTNodeValue.Number 4, ASTNodeValue.Number 3, ASTNodeValue.Number 2]) true true) [] =
      some (.ok (RuntimeVal.Scalar (2 + 3 * 4)), [("ans", RuntimeVal.Scalar (2 + 3 * 4))]) ∧
    ((2 : Scalar) + 3 * 4 = 14) ∧ ((2 : Scalar) + 3 * 4 ≠ 20) :=
  ⟨rfl, rfl, by norm_num, by norm_num⟩

/-- Claim C9: chained assignment works — `x = y = 2` parses (the second `=`
is not popped while the first is pending, since the precedences are equal),
and evaluating it binds `y` first, pushes `Variable "y"` back, resolves it
as the right operand of the outer `=`, and binds `x`, so both names map to
`Scalar 2` afterwards. -/
theorem chained_assignment_binds_both_names :
    parse [Token.Identifier "x", Token.Equal, Token.Identifier "y", Token.Equal,
        Token.NumericLiteral 2, Token.EndOfFile] =
      some (.ok (ASTNode.mk (ASTNodeValue.ArithmaticExpr
        [ASTNodeValue.Operator Operator.Assign, ASTNodeValue.Operator Operator.Assign,
         ASTNodeValue.Number 2, ASTNodeValue.Variable "y",
         ASTNodeValue.Variable "x"]) false true)) ∧
    evaluateNode 100 (ASTNode.mk (ASTNodeValue.ArithmaticExpr
        [ASTNodeValue.Operator Operator.Assign, ASTNodeValue.Operator Operator.Assign,
         ASTNodeValue.Number 2, ASTNodeValue.Variable "y",
         ASTNodeValue.Variable "x"]) false true) [] =
      some (.ok (RuntimeVal.Variable "x"),
        [("y", RuntimeVal.Scalar 2), ("x", RuntimeVal.Scalar 2)]) ∧
    getVar [("y", RuntimeVal.Scalar 2), ("x", RuntimeVal.Scalar 2)] "x" =
      some (RuntimeVal.Scalar 2) ∧
    getVar [("y", RuntimeVal.Scalar 2), ("x", RuntimeVal.Scalar 2)] "y" =
      some (RuntimeVal.Scalar 2) :=
  ⟨rfl, rfl, rfl, rfl⟩

/-- Claim C10: the empty 0-by-0 matrix is square and equal in shape to
itself, yet `Matrix::try_invert` returns `None` on it (its Gauss-Jordan
loop is empty and the final check `last_cell == Some(1.0)` fails because an
empty buffer has no last cell), so dividing the empty matrix by the empty
matrix fails with `NoninvertibleDivisorMatrix`. -/
theorem empty_matrix_division_noninvertible :
    Matrix.new.isSquare = true ∧
    Matrix.tryInvert Matrix.new = none ∧
    RuntimeVal.tryDiv (RuntimeVal.Matrix Matrix.new) (RuntimeVal.Matrix Matrix.new) =
      some (.error .NoninvertibleDivisorMatrix) :=
  ⟨rfl, rfl, rfl⟩

end NamLang
